import Mathlib

/-!
Shallow embedding of the crypto bot source (src/crypto_bot.py).

Modelling conventions:
- JSON values carry rationals (`ℚ`) in place of Python floats.
- The network side of `fetch_json` is abstracted: the environment supplies an
  `HttpResult` (status plus parse outcome of the body) per request, keyed by the
  request-identifying query value (symbol, instId, comma-joined ids).
- Python code that can raise is embedded in `Except Unit`; `asyncio.gather`
  with `return_exceptions = true` corresponds to collecting those `Except`
  values without aborting the surrounding fold.
- Python truthiness, `dict.get`, `dict` assignment and `float(...)` are
  embedded explicitly (`truthy`, `alookup`/`getD`, `dictInsert`, `pyFloat`).
-/

/-- A JSON-like value, as produced by parsing an HTTP response body. -/
inductive JVal where
  | null
  | bool (b : Bool)
  | num (q : ℚ)
  | str (s : String)
  | arr (xs : List JVal)
  | obj (kvs : List (String × JVal))

/-- A Python dict with string keys, in insertion order. -/
abbrev Dict := List (String × JVal)

/-- Lookup of a key in an association list (first occurrence). -/
def alookup {α : Type} (k : String) : List (String × α) → Option α
  | [] => none
  | (k0, v) :: rest => if k0 = k then some v else alookup k rest

/-- The keys of an association list, in order. -/
def dictKeys {α : Type} (d : List (String × α)) : List String := d.map Prod.fst

/-- Python dict assignment `d[k] = v`: replace the binding in place, or append. -/
def dictInsert {α : Type} (d : List (String × α)) (k : String) (v : α) : List (String × α) :=
  match d with
  | [] => [(k, v)]
  | (k0, v0) :: rest => if k0 = k then (k, v) :: rest else (k0, v0) :: dictInsert rest k v

/-- Python truthiness of a JSON value. -/
def truthy : JVal → Bool
  | .null => false
  | .bool b => b
  | .num q => q != 0
  | .str s => s != ""
  | .arr xs => !xs.isEmpty
  | .obj kvs => !kvs.isEmpty

/-- `isinstance(v, dict)`. -/
def JVal.isObj : JVal → Bool
  | .obj _ => true
  | _ => false

/-- Python `v.get(k)` on a JSON value known to be a dict (`none` otherwise). -/
def jget (v : JVal) (k : String) : Option JVal :=
  match v with
  | .obj kvs => alookup k kvs
  | _ => none

/-- Python `v.get(k, d)` on a dict. -/
def jgetD (v : JVal) (k : String) (d : JVal) : JVal := (jget v k).getD d

/-- Python `k in xs` for a list: membership by equality with the string `k`. -/
def listHasStr (xs : List JVal) (k : String) : Bool :=
  xs.any (fun j => match j with | .str s => s == k | _ => false)

/-- `startsWithChars needle hay`: the needle is an initial segment of hay. -/
def startsWithChars : List Char → List Char → Bool
  | [], _ => true
  | _ :: _, [] => false
  | n :: ns, h :: hs => n = h && startsWithChars ns hs

/-- Substring occurrence over character lists. -/
def hasSubChars (needle : List Char) : List Char → Bool
  | [] => needle.isEmpty
  | h :: hs => startsWithChars needle (h :: hs) || hasSubChars needle hs

/-- Python substring test `needle in hay` for strings. -/
def strContains (hay needle : String) : Bool :=
  hasSubChars needle.data hay.data

/-- Python `str.lower()` (ASCII model). -/
def pyLower (s : String) : String :=
  String.mk (s.data.map Char.toLower)

/-- Python `int(...)` on a float: truncation toward zero. -/
def pyInt (q : ℚ) : ℤ := if 0 ≤ q then ⌊q⌋ else ⌈q⌉

/-- Value of a list of decimal digit characters. -/
def digitsVal (cs : List Char) : ℕ := cs.foldl (fun a c => a * 10 + (c.toNat - 48)) 0

/-- Decimal-string grammar accepted by the model of Python `float(str)`:
optional sign, integer digits with optional fractional part.  Exponents and
special values are treated as parse failures by this model. -/
def parseDec (s : String) : Option ℚ :=
  let cs := s.data
  let sb : ℚ × List Char :=
    match cs with
    | '-' :: r => (-1, r)
    | '+' :: r => (1, r)
    | _ => (1, cs)
  let ip := sb.2.takeWhile Char.isDigit
  let rest := sb.2.dropWhile Char.isDigit
  match rest with
  | [] => if ip.isEmpty then none else some (sb.1 * (digitsVal ip : ℚ))
  | '.' :: fp =>
    if fp.all Char.isDigit && !(ip.isEmpty && fp.isEmpty) then
      some (sb.1 * ((digitsVal ip : ℚ) + (digitsVal fp : ℚ) / (10 : ℚ) ^ fp.length))
    else none
  | _ => none

/-- Python `float(x)` on a JSON value: numbers and booleans convert, strings are
parsed, anything else (None, lists, dicts) raises. -/
def pyFloat : JVal → Except Unit ℚ
  | .num q => .ok q
  | .bool b => .ok (if b then 1 else 0)
  | .str s =>
    match parseDec s with
    | some q => .ok q
    | none => .error ()
  | _ => .error ()

/-- Outcome of one HTTP GET as seen by `fetch_json`: a timeout, a transport
error, or a status code together with the parse outcome of the body (`none`
when parsing the body as JSON raises). -/
inductive HttpResult where
  | timeout
  | netError
  | response (status : ℕ) (body : Option JVal)

/-- The result-dispatch logic of `fetch_json`: HTTP 200 yields the parsed body,
a 200 body that fails to parse is caught by the `except` clause, 429 and every
other status, timeouts and transport exceptions all yield `None`. -/
def fetch_json : HttpResult → Option JVal
  | .response status body => if status = 200 then body else none
  | _ => none

/-- The query parameters actually sent by `fetch_json`: a copy of the caller
params with `_t` set to `int(time.time())`, `now` being the clock reading. -/
def fetchParams (params : Dict) (now : ℚ) : Dict :=
  dictInsert params "_t" (.num ((pyInt now : ℤ) : ℚ))

/-- CoinGecko ID to Binance symbol mapping table. -/
def COINGECKO_TO_BINANCE : List (String × String) :=
  [("bitcoin", "BTCUSDT"), ("ethereum", "ETHUSDT"), ("solana", "SOLUSDT"),
   ("binancecoin", "BNBUSDT"), ("ripple", "XRPUSDT"), ("cardano", "ADAUSDT"),
   ("dogecoin", "DOGEUSDT"), ("the-open-network", "TONUSDT"), ("polkadot", "DOTUSDT"),
   ("avalanche-2", "AVAXUSDT"), ("chainlink", "LINKUSDT"), ("uniswap", "UNIUSDT"),
   ("litecoin", "LTCUSDT"), ("shiba-inu", "SHIBUSDT"), ("sui", "SUIUSDT"),
   ("tron", "TRXUSDT"), ("pepe", "PEPEUSDT"), ("aptos", "APTUSDT"),
   ("arbitrum", "ARBUSDT"), ("optimism", "OPUSDT")]

/-- CoinGecko ID to OKX instId mapping table. -/
def COINGECKO_TO_OKX : List (String × String) :=
  [("bitcoin", "BTC-USDT"), ("ethereum", "ETH-USDT"), ("solana", "SOL-USDT"),
   ("binancecoin", "BNB-USDT"), ("ripple", "XRP-USDT"), ("cardano", "ADA-USDT"),
   ("dogecoin", "DOGE-USDT"), ("the-open-network", "TON-USDT"), ("polkadot", "DOT-USDT"),
   ("avalanche-2", "AVAX-USDT"), ("chainlink", "LINK-USDT"), ("uniswap", "UNI-USDT"),
   ("litecoin", "LTC-USDT"), ("shiba-inu", "SHIB-USDT"), ("sui", "SUI-USDT"),
   ("tron", "TRX-USDT"), ("pepe", "PEPE-USDT"), ("aptos", "APT-USDT"),
   ("arbitrum", "ARB-USDT"), ("optimism", "OP-USDT")]

/-- Fixed CNY conversion constant used by the exchange adapters. -/
def CNY_RATE : ℚ := 7.25

/-- The network environment of one `get_price` invocation: the `HttpResult`
delivered for each request, keyed by the request-identifying query value. -/
structure FetchEnv where
  binance : String → HttpResult
  okx : String → HttpResult
  coingecko : String → HttpResult

/-- Binance adapter `_price_from_binance`.  A mapping miss or a failed or falsy
fetch is `ok none`; `float(...)` or `.get` on a malformed payload raises. -/
def _price_from_binance (env : FetchEnv) (coin_id : String) : Except Unit (Option JVal) :=
  match alookup coin_id COINGECKO_TO_BINANCE with
  | none => .ok none
  | some symbol =>
    match fetch_json (env.binance symbol) with
    | none => .ok none
    | some data =>
      if !truthy data then .ok none
      else
        match data with
        | .obj kvs =>
          match pyFloat ((alookup "lastPrice" kvs).getD (.num 0)) with
          | .error e => .error e
          | .ok price =>
            match pyFloat ((alookup "priceChangePercent" kvs).getD (.num 0)) with
            | .error e => .error e
            | .ok change_pct =>
              match pyFloat ((alookup "quoteVolume" kvs).getD (.num 0)) with
              | .error e => .error e
              | .ok vol_usdt =>
                .ok (some (.obj
                  [("usd", .num price), ("cny", .num (price * CNY_RATE)),
                   ("usd_24h_change", .num change_pct), ("usd_24h_vol", .num vol_usdt),
                   ("usd_market_cap", .num 0), ("_source", .str "Binance")]))
        | _ => .error ()

/-- OKX adapter `_price_from_okx`.  It requires `code == "0"` and reads
`data["data"][0]`; `open24h` falls back to `last` when absent or falsy, and the
24h change divides only when the parsed `open24h` is nonzero. -/
def _price_from_okx (env : FetchEnv) (coin_id : String) : Except Unit (Option JVal) :=
  match alookup coin_id COINGECKO_TO_OKX with
  | none => .ok none
  | some instId =>
    match fetch_json (env.okx instId) with
    | none => .ok none
    | some data =>
      if !truthy data then .ok none
      else
        match data with
        | .obj kvs =>
          match alookup "code" kvs with
          | some (.str c) =>
            if c != "0" then .ok none
            else
              match alookup "data" kvs with
              | some (.arr (d0 :: _)) =>
                match d0 with
                | .obj dkvs =>
                  match pyFloat ((alookup "last" dkvs).getD (.num 0)) with
                  | .error e => .error e
                  | .ok price =>
                    match pyFloat
                        (if truthy ((alookup "open24h" dkvs).getD (.num price))
                         then (alookup "open24h" dkvs).getD (.num price)
                         else .num price) with
                    | .error e => .error e
                    | .ok open24 =>
                      match pyFloat ((alookup "volCcy24h" dkvs).getD (.num 0)) with
                      | .error e => .error e
                      | .ok vol_usdt =>
                        .ok (some (.obj
                          [("usd", .num price), ("cny", .num (price * CNY_RATE)),
                           ("usd_24h_change",
                            .num (if open24 ≠ 0 then (price - open24) / open24 * 100 else 0)),
                           ("usd_24h_vol", .num vol_usdt),
                           ("usd_market_cap", .num 0), ("_source", .str "OKX")]))
                | _ => .error ()
              | _ => .error ()
          | _ => .ok none
        | _ => .error ()

/-- CoinGecko adapter `_price_from_coingecko`: one batched fetch, body returned
as parsed. -/
def _price_from_coingecko (env : FetchEnv) (coin_ids : String) : Option JVal :=
  fetch_json (env.coingecko coin_ids)

/-- Python `str.strip()`: drop whitespace from both ends. -/
def pyStrip (s : String) : String :=
  String.mk ((s.data.dropWhile Char.isWhitespace).reverse.dropWhile Char.isWhitespace).reverse

/-- Python `str.split(",")` over the character list. -/
def splitOnCommaAux : List Char → List Char → List (List Char)
  | [], acc => [acc.reverse]
  | c :: rest, acc =>
    if c = ',' then acc.reverse :: splitOnCommaAux rest []
    else splitOnCommaAux rest (c :: acc)

/-- Python `str.split(",")`. -/
def splitOnComma (s : String) : List String :=
  (splitOnCommaAux s.data []).map String.mk

/-- The id-list parsing of `get_price`:
`[c.strip() for c in coin_ids.split(",") if c.strip()]`. -/
def parseIds (coin_ids : String) : List String :=
  ((splitOnComma coin_ids).map pyStrip).filter (fun c => c != "")

/-- One step of the per-tier collection loop of `get_price`: an exception or a
non-dict or a falsy `usd` sends the id to the next tier, otherwise the quote is
stored under the id. -/
def tierStep (acc : Dict × List String) (p : String × Except Unit (Option JVal)) :
    Dict × List String :=
  match p.2 with
  | .ok (some v) =>
    if v.isObj && truthy (jgetD v "usd" JVal.null) then (dictInsert acc.1 p.1 v, acc.2)
    else (acc.1, acc.2 ++ [p.1])
  | _ => (acc.1, acc.2 ++ [p.1])

/-- The concurrent fan-out of one tier of `get_price`: every id is dispatched
to the adapter, the settled results are zipped back with the ids, and the loop
partitions them into stored quotes and the unresolved remainder. -/
def tierFold (f : String → Except Unit (Option JVal)) (res0 : Dict) (ids : List String) :
    Dict × List String :=
  (ids.zip (ids.map f)).foldl tierStep (res0, [])

/-- One iteration of the CoinGecko merge loop:
`if cid in cg_data: cg_data[cid]["_source"] = "CoinGecko"; result[cid] = cg_data[cid]`.
Indexing or mutating a non-dict raises. -/
def cgStep (cg_data : JVal) (res : Dict) (cid : String) : Except Unit Dict :=
  match cg_data with
  | .obj kvs =>
    match alookup cid kvs with
    | some (.obj ekvs) => .ok (dictInsert res cid (.obj (dictInsert ekvs "_source" (.str "CoinGecko"))))
    | some _ => .error ()
    | none => .ok res
  | .arr xs => if listHasStr xs cid then .error () else .ok res
  | .str s => if strContains s cid then .error () else .ok res
  | _ => .error ()

/-- The three-tier resolution pipeline of `get_price` on an already-parsed id
list: Binance fan-out, OKX fan-out over the remainder, one batched CoinGecko
call over what is still unresolved. -/
def resolveAll (env : FetchEnv) (ids : List String) : Except Unit Dict :=
  let st1 := tierFold (_price_from_binance env) [] ids
  let st2 := tierFold (_price_from_okx env) st1.1 st1.2
  if st2.2.isEmpty then .ok st2.1
  else
    match _price_from_coingecko env (String.intercalate "," st2.2) with
    | some cg_data =>
      if truthy cg_data then st2.2.foldlM (fun res cid => cgStep cg_data res cid) st2.1
      else .ok st2.1
    | none => .ok st2.1

/-- `get_price`: parse the ids, run the pipeline, and return `None` when the
result dict is empty (`return result if result else None`). -/
def get_price (env : FetchEnv) (coin_ids : String) : Except Unit (Option Dict) :=
  (resolveAll env (parseIds coin_ids)).map (fun result => if result.isEmpty then none else some result)

/-- The acceptance test `isinstance(br, dict) and br.get("usd")` applied to one
settled adapter result. -/
def acceptsQuote (r : Except Unit (Option JVal)) : Bool :=
  match r with
  | .ok (some v) => v.isObj && truthy (jgetD v "usd" JVal.null)
  | _ => false

/-- The quote carried by a settled adapter result, if any. -/
def quoteOf (r : Except Unit (Option JVal)) : Option JVal :=
  match r with
  | .ok (some v) => some v
  | _ => none

/-- `binResolves env k` holds when the Binance adapter resolves `k` in this
environment (the tier-1 acceptance test passes). -/
def binResolves (env : FetchEnv) (k : String) : Bool :=
  acceptsQuote (_price_from_binance env k)

/-- `okxResolves env k` holds when the OKX adapter resolves `k` in this
environment. -/
def okxResolves (env : FetchEnv) (k : String) : Bool :=
  acceptsQuote (_price_from_okx env k)

/-- The ids handed to the OKX tier: the tier-1 remainder. -/
def needOkx (env : FetchEnv) (ids : List String) : List String :=
  (tierFold (_price_from_binance env) [] ids).2

/-- The ids handed to the CoinGecko tier: the tier-2 remainder. -/
def needCg (env : FetchEnv) (ids : List String) : List String :=
  (tierFold (_price_from_okx env) (tierFold (_price_from_binance env) [] ids).1 (needOkx env ids)).2

/-- The CoinGecko payload actually consulted by the pipeline (`.null` when the
tier is skipped or its fetch failed or was falsy). -/
def cgData (env : FetchEnv) (ids : List String) : JVal :=
  if (needCg env ids).isEmpty then .null
  else
    match _price_from_coingecko env (String.intercalate "," (needCg env ids)) with
    | some d => if truthy d then d else .null
    | none => .null

/-- `cgResolves cg k`: the batched CoinGecko payload carries a dict entry for
`k` (the only shape the merge loop stores without raising). -/
def cgResolves (cg : JVal) (k : String) : Bool :=
  match cg with
  | .obj kvs =>
    match alookup k kvs with
    | some (.obj _) => true
    | _ => false
  | _ => false

/-- The quote the CoinGecko merge loop stores for `k`: the entry of the payload
with `_source` set to `"CoinGecko"`. -/
def cgQuote (cg : JVal) (k : String) : JVal :=
  match cg with
  | .obj kvs =>
    match alookup k kvs with
    | some (.obj ekvs) => .obj (dictInsert ekvs "_source" (.str "CoinGecko"))
    | _ => .null
  | _ => .null

/-- `k` was resolved by some tier within this `get_price` invocation. -/
def resolvedBy (env : FetchEnv) (ids : List String) (k : String) : Prop :=
  (binResolves env k = true ∧ k ∈ ids) ∨
  (okxResolves env k = true ∧ k ∈ needOkx env ids) ∨
  (cgResolves (cgData env ids) k = true ∧ k ∈ needCg env ids)

/-- One stored conversation entry (`{"role": ..., "content": ...}`). -/
structure ChatEntry where
  role : String
  content : String
deriving DecidableEq

/-- Outcome of the language-model HTTP call: a well-formed 200 with a reply, a
non-200 status, a timeout, or any other exception (transport failure or a 200
whose body cannot be parsed or indexed). -/
inductive LLMOutcome where
  | ok (msg : String)
  | badStatus (code : ℕ)
  | timeout
  | exn
deriving DecidableEq

/-- The history trim of `chat_with_deepseek`:
`if len(h) > 20: h = h[-20:]`. -/
def pyTrim (l : List ChatEntry) : List ChatEntry :=
  if l.length > 20 then l.drop (l.length - 20) else l

/-- The (possibly context-augmented) user message: when `context_data` is
truthy it is prepended as a labelled block, `now` being the formatted clock. -/
def fullMessage (context_data now user_message : String) : String :=
  if context_data ≠ "" then
    "[实时市场数据 " ++ now ++ "]\n" ++ context_data ++ "\n\n[用户问题]\n" ++ user_message
  else user_message

/-- The user-facing reply for each model-call outcome. -/
def placeholderOf : LLMOutcome → String
  | .ok msg => msg
  | .badStatus _ => "⚠️ AI 服务暂时不可用，请稍后再试。"
  | .timeout => "⏱️ AI 响应超时，请稍后再试。"
  | .exn => "❌ 连接 AI 失败，请检查网络。"

/-- State transition of `chat_with_deepseek` on one user history: append the
(possibly augmented) user entry, trim to the last 20 entries, then append the
assistant entry only when the model call returned a well-formed 200. -/
def chat_with_deepseek (hist : List ChatEntry) (user_message context_data now : String)
    (out : LLMOutcome) : List ChatEntry × String :=
  let h2 := pyTrim (hist ++ [⟨"user", fullMessage context_data now user_message⟩])
  match out with
  | .ok msg => (h2 ++ [⟨"assistant", msg⟩], msg)
  | o => (h2, placeholderOf o)

/-- One successful exchange (used to iterate scenarios). -/
def successStep (hist : List ChatEntry) (u a : String) : List ChatEntry :=
  (chat_with_deepseek hist u "" "" (.ok a)).1

/-- The stored history after `n` sequential successful exchanges with user
messages `u` and assistant replies `a`, starting from an empty history. -/
def runExchanges (u a : ℕ → String) : ℕ → List ChatEntry
  | 0 => []
  | n + 1 => successStep (runExchanges u a n) (u n) (a n)

/-- The untrimmed ideal stream of entries of the same `n` exchanges. -/
def chatStream (u a : ℕ → String) : ℕ → List ChatEntry
  | 0 => []
  | n + 1 => chatStream u a n ++ [⟨"user", u n⟩, ⟨"assistant", a n⟩]

/-- The alias table used by free-text coin detection. -/
def COIN_ALIAS : List (String × String) :=
  [("btc", "bitcoin"), ("比特币", "bitcoin"),
   ("eth", "ethereum"), ("以太坊", "ethereum"), ("以太", "ethereum"),
   ("sol", "solana"), ("索拉纳", "solana"),
   ("bnb", "binancecoin"),
   ("xrp", "ripple"), ("瑞波", "ripple"),
   ("ada", "cardano"),
   ("doge", "dogecoin"), ("狗狗币", "dogecoin"),
   ("ton", "the-open-network"),
   ("dot", "polkadot"), ("波卡", "polkadot"),
   ("avax", "avalanche-2"),
   ("link", "chainlink"),
   ("uni", "uniswap"),
   ("ltc", "litecoin"), ("莱特币", "litecoin"),
   ("shib", "shiba-inu"),
   ("sui", "sui"),
   ("trx", "tron"), ("波场", "tron"),
   ("pepe", "pepe"),
   ("apt", "aptos"),
   ("arb", "arbitrum"),
   ("op", "optimism")]

/-- `dict.fromkeys` deduplication: keep the first occurrence of each value. -/
def dedupFirstAux : List String → List String → List String
  | [], _ => []
  | x :: xs, seen => if x ∈ seen then dedupFirstAux xs seen else x :: dedupFirstAux xs (x :: seen)

/-- Deduplicate keeping first occurrences. -/
def dedupFirst (l : List String) : List String := dedupFirstAux l []

/-- `detect_coins`: lower the text, keep the canonical id of every alias key
occurring as a substring, deduplicate keeping first occurrences, cap at 4. -/
def detect_coins (text : String) : List String :=
  (dedupFirst ((COIN_ALIAS.filter (fun kv => strContains (pyLower text) kv.1)).map
    (fun kv => kv.2))).take 4

/-- Environment used for the C1 and C2 witnesses: Binance answers every symbol
with a well-formed ticker whose last price is 5, the other tiers fail. -/
def envW : FetchEnv :=
  ⟨fun _ => HttpResult.response 200 (some (JVal.obj [("lastPrice", JVal.num 5)])),
   fun _ => HttpResult.response 500 none,
   fun _ => HttpResult.response 500 none⟩

/-- The quote the Binance adapter builds in `envW`. -/
def quoteW : JVal :=
  .obj [("usd", .num 5), ("cny", .num (5 * CNY_RATE)),
        ("usd_24h_change", .num 0), ("usd_24h_vol", .num 0),
        ("usd_market_cap", .num 0), ("_source", .str "Binance")]

/-- Environment for the C6 witness: the ethereum symbol gets a truthy non-dict
body (its adapter raises inside float/get), the bitcoin symbol a well-formed
ticker. -/
def envSplit : FetchEnv :=
  ⟨fun sym => if sym = "BTCUSDT" then
      HttpResult.response 200 (some (JVal.obj [("lastPrice", JVal.num 5)]))
    else HttpResult.response 200 (some (JVal.num 1)),
   fun _ => HttpResult.response 500 none,
   fun _ => HttpResult.response 500 none⟩

/-- Environment for the C3 counterexample and witness: both exchanges fail and
CoinGecko answers with a `usd` of zero for bitcoin. -/
def envCg : FetchEnv :=
  ⟨fun _ => HttpResult.response 500 none,
   fun _ => HttpResult.response 500 none,
   fun _ => HttpResult.response 200
     (some (JVal.obj [("bitcoin", JVal.obj [("usd", JVal.num 0)])]))⟩

/-- Environment for the C7 witness: OKX answers with a well-formed ticker
with last 10 and open24h 8. -/
def envOkx : FetchEnv :=
  ⟨fun _ => HttpResult.response 500 none,
   fun _ => HttpResult.response 200 (some (JVal.obj
     [("code", JVal.str "0"),
      ("data", JVal.arr [JVal.obj [("last", JVal.num 10), ("open24h", JVal.num 8)]])])),
   fun _ => HttpResult.response 500 none⟩

/-- The quote the OKX adapter builds in `envOkx`. -/
def vOkxW : JVal :=
  .obj [("usd", .num 10), ("cny", .num (10 * CNY_RATE)),
        ("usd_24h_change", .num (if (8 : ℚ) ≠ 0 then ((10 : ℚ) - 8) / 8 * 100 else 0)),
        ("usd_24h_vol", .num 0),
        ("usd_market_cap", .num 0), ("_source", .str "OKX")]


/-! ### Association-list lemmas -/

theorem alookup_dictInsert_self {α : Type} (d : List (String × α)) (k : String) (v : α) :
    alookup k (dictInsert d k v) = some v := by
  induction d with
  | nil => simp [dictInsert, alookup]
  | cons p rest ih =>
    obtain ⟨k0, v0⟩ := p
    by_cases h : k0 = k
    · simp [dictInsert, h, alookup]
    · simp [dictInsert, h, alookup, ih]

theorem alookup_dictInsert_ne {α : Type} (d : List (String × α)) {k k' : String} (v : α)
    (h : k' ≠ k) : alookup k' (dictInsert d k v) = alookup k' d := by
  induction d with
  | nil => simp [dictInsert, alookup, Ne.symm h]
  | cons p rest ih =>
    obtain ⟨k0, v0⟩ := p
    by_cases h0 : k0 = k
    · subst h0; simp [dictInsert, alookup, Ne.symm h]
    · simp [dictInsert, h0, alookup, ih]

theorem dictKeys_dictInsert {α : Type} (d : List (String × α)) (k : String) (v : α) :
    dictKeys (dictInsert d k v) =
      if k ∈ dictKeys d then dictKeys d else dictKeys d ++ [k] := by
  induction d with
  | nil => simp [dictInsert, dictKeys]
  | cons p rest ih =>
    obtain ⟨k0, v0⟩ := p
    by_cases h0 : k0 = k
    · subst h0; simp [dictInsert, dictKeys]
    · simp only [dictInsert, if_neg h0, dictKeys, List.map_cons, List.mem_cons]
      rw [show dictKeys (dictInsert rest k v) = List.map Prod.fst (dictInsert rest k v) from rfl] at ih
      by_cases hm : k ∈ List.map Prod.fst rest
      · simp [dictKeys] at ih
        simp [ih, hm, Ne.symm h0]
      · simp [dictKeys] at ih
        simp [ih, hm, Ne.symm h0]

theorem nodup_dictInsert {α : Type} (d : List (String × α)) (k : String) (v : α)
    (h : (dictKeys d).Nodup) : (dictKeys (dictInsert d k v)).Nodup := by
  rw [dictKeys_dictInsert]
  by_cases hm : k ∈ dictKeys d
  · simpa [hm] using h
  · simp [hm, List.nodup_append, h]

theorem alookup_eq_none_iff {α : Type} (d : List (String × α)) (k : String) :
    alookup k d = none ↔ k ∉ dictKeys d := by
  induction d with
  | nil => simp [alookup, dictKeys]
  | cons p rest ih =>
    obtain ⟨k0, v0⟩ := p
    by_cases h0 : k0 = k
    · subst h0; simp [alookup, dictKeys]
    · simp [alookup, h0, dictKeys, ih, Ne.symm h0]
    
theorem exists_alookup_of_ne_nil (d : Dict) (h : d ≠ []) :
    ∃ k v, alookup k d = some v := by
  match d with
  | [] => exact absurd rfl h
  | (k0, v0) :: rest => exact ⟨k0, v0, by simp [alookup]⟩

/-! ### Tier fan-out characterization -/

theorem zip_self_map {α β : Type} (f : α → β) (l : List α) :
    l.zip (l.map f) = l.map (fun c => (c, f c)) := by
  induction l with
  | nil => rfl
  | cons c cs ih => simp [ih]

theorem tierFold_aux_snd (f : String → Except Unit (Option JVal)) :
    ∀ (ids : List String) (res0 : Dict) (need0 : List String),
      (List.foldl tierStep (res0, need0) (ids.map (fun c => (c, f c)))).2 =
        need0 ++ ids.filter (fun c => !acceptsQuote (f c)) := by
  intro ids
  induction ids with
  | nil => intro res0 need0; simp
  | cons c cs ih =>
    intro res0 need0
    simp only [List.map_cons, List.foldl_cons, List.filter_cons]
    rcases hfc : f c with e | o
    · simp only [tierStep]
      rw [ih]
      simp [acceptsQuote, hfc]
    · match o with
      | none =>
        simp only [tierStep]
        rw [ih]
        simp [acceptsQuote, hfc]
      | some v =>
        by_cases hb : (v.isObj && truthy (jgetD v "usd" JVal.null)) = true
        · simp only [tierStep, hb, if_true]
          rw [ih]
          simp [acceptsQuote, hfc, hb]
        · simp only [tierStep, hb, if_false]
          rw [ih]
          simp [acceptsQuote, hfc, hb]

theorem tierFold_aux_fst (f : String → Except Unit (Option JVal)) :
    ∀ (ids : List String) (res0 : Dict) (need0 : List String) (k : String),
      alookup k (List.foldl tierStep (res0, need0) (ids.map (fun c => (c, f c)))).1 =
        if acceptsQuote (f k) = true ∧ k ∈ ids then quoteOf (f k) else alookup k res0 := by
  intro ids
  induction ids with
  | nil => intro res0 need0 k; simp
  | cons c cs ih =>
    intro res0 need0 k
    simp only [List.map_cons, List.foldl_cons]
    rcases hfc : f c with e | o
    · simp only [tierStep]
      rw [ih]
      by_cases hk : k = c
      · subst hk; simp [acceptsQuote, hfc]
      · simp [hk]
    · match o with
      | none =>
        simp only [tierStep]
        rw [ih]
        by_cases hk : k = c
        · subst hk; simp [acceptsQuote, hfc]
        · simp [hk]
      | some v =>
        by_cases hb : (v.isObj && truthy (jgetD v "usd" JVal.null)) = true
        · simp only [tierStep, hb, if_true]
          rw [ih]
          by_cases hk : k = c
          · subst hk
            by_cases hcs : k ∈ cs
            · simp [acceptsQuote, hfc, hb, hcs]
            · simp [acceptsQuote, hfc, hb, hcs, alookup_dictInsert_self, quoteOf]
          · by_cases hcs : k ∈ cs
            · simp [hk, hcs, alookup_dictInsert_ne _ _ hk]
            · simp [hk, hcs, alookup_dictInsert_ne _ _ hk]
        · simp only [tierStep, hb, if_false]
          rw [ih]
          by_cases hk : k = c
          · subst hk; simp [acceptsQuote, hfc, hb]
          · simp [hk]

theorem tierFold_aux_nodup (f : String → Except Unit (Option JVal)) :
    ∀ (ids : List String) (res0 : Dict) (need0 : List String),
      (dictKeys res0).Nodup →
      (dictKeys (List.foldl tierStep (res0, need0) (ids.map (fun c => (c, f c)))).1).Nodup := by
  intro ids
  induction ids with
  | nil => intro res0 need0 h; simpa using h
  | cons c cs ih =>
    intro res0 need0 h
    simp only [List.map_cons, List.foldl_cons]
    rcases hfc : f c with e | o
    · simp only [tierStep]; exact ih _ _ h
    · match o with
      | none => simp only [tierStep]; exact ih _ _ h
      | some v =>
        by_cases hb : (v.isObj && truthy (jgetD v "usd" JVal.null)) = true
        · simp only [tierStep, hb, if_true]
          exact ih _ _ (nodup_dictInsert _ _ _ h)
        · simp only [tierStep, hb, if_false]
          exact ih _ _ h

theorem tierFold_snd (f : String → Except Unit (Option JVal)) (res0 : Dict) (ids : List String) :
    (tierFold f res0 ids).2 = ids.filter (fun c => !acceptsQuote (f c)) := by
  unfold tierFold
  rw [zip_self_map]
  simpa using tierFold_aux_snd f ids res0 []

theorem tierFold_lookup (f : String → Except Unit (Option JVal)) (res0 : Dict)
    (ids : List String) (k : String) :
    alookup k (tierFold f res0 ids).1 =
      if acceptsQuote (f k) = true ∧ k ∈ ids then quoteOf (f k) else alookup k res0 := by
  unfold tierFold
  rw [zip_self_map]
  exact tierFold_aux_fst f ids res0 [] k

theorem tierFold_nodup (f : String → Except Unit (Option JVal)) (res0 : Dict)
    (ids : List String) (h : (dictKeys res0).Nodup) : (dictKeys (tierFold f res0 ids).1).Nodup := by
  unfold tierFold
  rw [zip_self_map]
  exact tierFold_aux_nodup f ids res0 [] h

/-! ### CoinGecko merge characterization -/

theorem cgStep_ok (cg : JVal) (res res1 : Dict) (c : String)
    (h : cgStep cg res c = .ok res1) :
    (cgResolves cg c = true ∧ res1 = dictInsert res c (cgQuote cg c)) ∨
    (cgResolves cg c = false ∧ res1 = res) := by
  cases cg with
  | obj kvs =>
    rcases hl : alookup c kvs with _ | entry
    · right
      simp [cgStep, hl] at h
      simp [cgResolves, hl, h]
    · cases entry with
      | obj ekvs =>
        left
        simp [cgStep, hl] at h
        simp [cgResolves, cgQuote, hl, h]
      | null => simp [cgStep, hl] at h
      | bool b => simp [cgStep, hl] at h
      | num q => simp [cgStep, hl] at h
      | str s => simp [cgStep, hl] at h
      | arr xs => simp [cgStep, hl] at h
  | arr xs =>
    by_cases hm : listHasStr xs c = true
    · simp [cgStep, hm] at h
    · right
      simp [cgStep, hm] at h
      simp [cgResolves, h]
  | str s =>
    by_cases hm : strContains s c = true
    · simp [cgStep, hm] at h
    · right
      simp [cgStep, hm] at h
      simp [cgResolves, h]
  | null => simp [cgStep] at h
  | bool b => simp [cgStep] at h
  | num q => simp [cgStep] at h

theorem cgFold_lookup (cg : JVal) :
    ∀ (need : List String) (res final : Dict),
      List.foldlM (fun r cid => cgStep cg r cid) res need = Except.ok final →
      ∀ k, alookup k final =
        if cgResolves cg k = true ∧ k ∈ need then some (cgQuote cg k) else alookup k res := by
  intro need
  induction need with
  | nil =>
    intro res final h k
    simp only [List.foldlM_nil] at h
    obtain rfl : res = final := Except.ok.inj h
    simp
  | cons c cs ih =>
    intro res final h k
    rw [List.foldlM_cons] at h
    rcases hstep : cgStep cg res c with e | res1
    · rw [hstep] at h
      exact Except.noConfusion h
    · rw [hstep] at h
      have h' : List.foldlM (fun r cid => cgStep cg r cid) res1 cs = Except.ok final := h
      have hrec := ih res1 final h' k
      rcases cgStep_ok cg res res1 c hstep with ⟨hres, rfl⟩ | ⟨hres, rfl⟩
      · by_cases hk : k = c
        · subst hk
          by_cases hcs : k ∈ cs
          · simpa [hres, hcs] using hrec
          · simpa [hres, hcs, alookup_dictInsert_self] using hrec
        · by_cases hcs : k ∈ cs
          · simpa [hk, hcs, alookup_dictInsert_ne _ _ hk] using hrec
          · simpa [hk, hcs, alookup_dictInsert_ne _ _ hk] using hrec
      · by_cases hk : k = c
        · subst hk
          simpa [hres] using hrec
        · simpa [hk] using hrec

theorem cgFold_nodup (cg : JVal) :
    ∀ (need : List String) (res final : Dict),
      List.foldlM (fun r cid => cgStep cg r cid) res need = Except.ok final →
      (dictKeys res).Nodup → (dictKeys final).Nodup := by
  intro need
  induction need with
  | nil =>
    intro res final h hn
    simp only [List.foldlM_nil] at h
    obtain rfl : res = final := Except.ok.inj h
    exact hn
  | cons c cs ih =>
    intro res final h hn
    rw [List.foldlM_cons] at h
    rcases hstep : cgStep cg res c with e | res1
    · rw [hstep] at h
      exact Except.noConfusion h
    · rw [hstep] at h
      have h' : List.foldlM (fun r cid => cgStep cg r cid) res1 cs = Except.ok final := h
      rcases cgStep_ok cg res res1 c hstep with ⟨hres, rfl⟩ | ⟨hres, rfl⟩
      · exact ih _ _ h' (nodup_dictInsert _ _ _ hn)
      · exact ih _ _ h' hn

/-! ### Pipeline characterization -/

theorem needOkx_eq (env : FetchEnv) (ids : List String) :
    needOkx env ids = ids.filter (fun c => !binResolves env c) := by
  unfold needOkx binResolves
  exact tierFold_snd _ _ _

theorem needCg_eq (env : FetchEnv) (ids : List String) :
    needCg env ids = (needOkx env ids).filter (fun c => !okxResolves env c) := by
  unfold needCg okxResolves
  exact tierFold_snd _ _ _

theorem mem_needOkx_iff (env : FetchEnv) (ids : List String) (k : String) :
    k ∈ needOkx env ids ↔ k ∈ ids ∧ binResolves env k = false := by
  rw [needOkx_eq]
  simp [List.mem_filter]

theorem mem_needCg_iff (env : FetchEnv) (ids : List String) (k : String) :
    k ∈ needCg env ids ↔ k ∈ needOkx env ids ∧ okxResolves env k = false := by
  rw [needCg_eq]
  simp [List.mem_filter]

theorem stage2_lookup (env : FetchEnv) (ids : List String) (k : String) :
    alookup k (tierFold (_price_from_okx env)
        (tierFold (_price_from_binance env) [] ids).1
        (tierFold (_price_from_binance env) [] ids).2).1 =
      if binResolves env k = true ∧ k ∈ ids then quoteOf (_price_from_binance env k)
      else if okxResolves env k = true ∧ k ∈ needOkx env ids then quoteOf (_price_from_okx env k)
      else none := by
  rw [tierFold_lookup, tierFold_lookup]
  have hno : (tierFold (_price_from_binance env) [] ids).2 = needOkx env ids := rfl
  by_cases h1 : binResolves env k = true ∧ k ∈ ids
  · have hnm : k ∉ needOkx env ids := by
      rw [mem_needOkx_iff]
      simp [h1.1]
    rw [hno]
    simp [hnm, binResolves] at h1 ⊢
    simp [h1, alookup]
  · rw [hno]
    by_cases h2 : okxResolves env k = true ∧ k ∈ needOkx env ids
    · have h2' : acceptsQuote (_price_from_okx env k) = true ∧ k ∈ needOkx env ids := h2
      simp [if_neg h1, h2', h2.1, h2.2]
    · simp only [okxResolves] at h2
      simp only [okxResolves, if_neg h2, if_neg h1]
      have h1' : ¬(acceptsQuote (_price_from_binance env k) = true ∧ k ∈ ids) := by
        simpa [binResolves] using h1
      simp [h1', alookup]

theorem resolveAll_lookup (env : FetchEnv) (ids : List String) (d : Dict)
    (h : resolveAll env ids = .ok d) (k : String) :
    alookup k d =
      if binResolves env k = true ∧ k ∈ ids then quoteOf (_price_from_binance env k)
      else if okxResolves env k = true ∧ k ∈ needOkx env ids then quoteOf (_price_from_okx env k)
      else if cgResolves (cgData env ids) k = true ∧ k ∈ needCg env ids then
        some (cgQuote (cgData env ids) k)
      else none := by
  have hkey := stage2_lookup env ids k
  have hncg : (tierFold (_price_from_okx env)
      (tierFold (_price_from_binance env) [] ids).1
      (tierFold (_price_from_binance env) [] ids).2).2 = needCg env ids := rfl
  rw [show resolveAll env ids =
      (if (needCg env ids).isEmpty then
        Except.ok (tierFold (_price_from_okx env)
          (tierFold (_price_from_binance env) [] ids).1
          (tierFold (_price_from_binance env) [] ids).2).1
      else
        match _price_from_coingecko env (String.intercalate "," (needCg env ids)) with
        | some cg_data =>
          if truthy cg_data then
            (needCg env ids).foldlM (fun res cid => cgStep cg_data res cid)
              (tierFold (_price_from_okx env)
                (tierFold (_price_from_binance env) [] ids).1
                (tierFold (_price_from_binance env) [] ids).2).1
          else Except.ok (tierFold (_price_from_okx env)
            (tierFold (_price_from_binance env) [] ids).1
            (tierFold (_price_from_binance env) [] ids).2).1
        | none => Except.ok (tierFold (_price_from_okx env)
            (tierFold (_price_from_binance env) [] ids).1
            (tierFold (_price_from_binance env) [] ids).2).1) from rfl] at h
  by_cases hemp : (needCg env ids).isEmpty
  · rw [if_pos hemp] at h
    obtain rfl := Except.ok.inj h
    have hcg : cgData env ids = JVal.null := by
      unfold cgData
      rw [if_pos hemp]
    have hkcg : k ∉ needCg env ids := by
      have : needCg env ids = [] := by simpa using hemp
      simp [this]
    rw [hkey]
    by_cases h1 : binResolves env k = true ∧ k ∈ ids
    · simp [h1]
    · by_cases h2 : okxResolves env k = true ∧ k ∈ needOkx env ids
      · simp [h1, h2]
      · simp [h1, h2, hkcg]
  · rw [if_neg hemp] at h
    rcases hfetch : _price_from_coingecko env (String.intercalate "," (needCg env ids)) with _ | cg
    · simp only [hfetch] at h
      obtain rfl := Except.ok.inj h
      have hcg : cgData env ids = JVal.null := by
        unfold cgData
        rw [if_neg hemp]
        simp only [hfetch]
      rw [hkey, hcg]
      by_cases h1 : binResolves env k = true ∧ k ∈ ids
      · simp [h1]
      · by_cases h2 : okxResolves env k = true ∧ k ∈ needOkx env ids
        · simp [h1, h2]
        · simp [h1, h2, cgResolves]
    · simp only [hfetch] at h
      by_cases htr : truthy cg = true
      · rw [if_pos htr] at h
        have hcg : cgData env ids = cg := by
          unfold cgData
          rw [if_neg hemp]
          simp only [hfetch]
          rw [if_pos htr]
        have hfold := cgFold_lookup cg (needCg env ids) _ d h k
        rw [hfold, hkey, hcg]
        by_cases h3 : cgResolves cg k = true ∧ k ∈ needCg env ids
        · have hok : okxResolves env k = false ∧ k ∈ needOkx env ids := by
            have := (mem_needCg_iff env ids k).1 h3.2
            exact ⟨this.2, this.1⟩
          have hbin : binResolves env k = false := by
            have := (mem_needOkx_iff env ids k).1 hok.2
            exact this.2
          simp [h3, hbin, hok.1]
        · by_cases h1 : binResolves env k = true ∧ k ∈ ids
          · simp [h3, h1]
          · by_cases h2 : okxResolves env k = true ∧ k ∈ needOkx env ids
            · simp [h3, h1, h2]
            · simp [h3, h1, h2]
      · rw [if_neg htr] at h
        obtain rfl := Except.ok.inj h
        have hcg : cgData env ids = JVal.null := by
          unfold cgData
          rw [if_neg hemp]
          simp only [hfetch]
          rw [if_neg htr]
        rw [hkey, hcg]
        by_cases h1 : binResolves env k = true ∧ k ∈ ids
        · simp [h1]
        · by_cases h2 : okxResolves env k = true ∧ k ∈ needOkx env ids
          · simp [h1, h2]
          · simp [h1, h2, cgResolves]

theorem resolveAll_nodup (env : FetchEnv) (ids : List String) (d : Dict)
    (h : resolveAll env ids = .ok d) : (dictKeys d).Nodup := by
  have hnil : (dictKeys ([] : Dict)).Nodup := by simp [dictKeys]
  have h2 : (dictKeys (tierFold (_price_from_okx env)
      (tierFold (_price_from_binance env) [] ids).1
      (tierFold (_price_from_binance env) [] ids).2).1).Nodup :=
    tierFold_nodup _ _ _ (tierFold_nodup _ _ _ hnil)
  rw [show resolveAll env ids =
      (if (needCg env ids).isEmpty then
        Except.ok (tierFold (_price_from_okx env)
          (tierFold (_price_from_binance env) [] ids).1
          (tierFold (_price_from_binance env) [] ids).2).1
      else
        match _price_from_coingecko env (String.intercalate "," (needCg env ids)) with
        | some cg_data =>
          if truthy cg_data then
            (needCg env ids).foldlM (fun res cid => cgStep cg_data res cid)
              (tierFold (_price_from_okx env)
                (tierFold (_price_from_binance env) [] ids).1
                (tierFold (_price_from_binance env) [] ids).2).1
          else Except.ok (tierFold (_price_from_okx env)
            (tierFold (_price_from_binance env) [] ids).1
            (tierFold (_price_from_binance env) [] ids).2).1
        | none => Except.ok (tierFold (_price_from_okx env)
            (tierFold (_price_from_binance env) [] ids).1
            (tierFold (_price_from_binance env) [] ids).2).1) from rfl] at h
  by_cases hemp : (needCg env ids).isEmpty
  · rw [if_pos hemp] at h
    obtain rfl := Except.ok.inj h
    exact h2
  · rw [if_neg hemp] at h
    rcases hfetch : _price_from_coingecko env (String.intercalate "," (needCg env ids)) with _ | cg
    · simp only [hfetch] at h
      obtain rfl := Except.ok.inj h
      exact h2
    · simp only [hfetch] at h
      by_cases htr : truthy cg = true
      · rw [if_pos htr] at h
        exact cgFold_nodup cg (needCg env ids) _ d h h2
      · rw [if_neg htr] at h
        obtain rfl := Except.ok.inj h
        exact h2

/-! ### Adapter and orchestrator helper lemmas -/

theorem acceptsQuote_quoteOf_isSome (r : Except Unit (Option JVal))
    (h : acceptsQuote r = true) : (quoteOf r).isSome = true := by
  rcases r with e | o
  · simp [acceptsQuote] at h
  · rcases o with _ | v
    · simp [acceptsQuote] at h
    · simp [quoteOf]

theorem acceptsQuote_usd (r : Except Unit (Option JVal)) (v : JVal)
    (h : acceptsQuote r = true) (hq : quoteOf r = some v) :
    truthy (jgetD v "usd" JVal.null) = true := by
  rcases r with e | o
  · simp [acceptsQuote] at h
  · rcases o with _ | w
    · simp [acceptsQuote] at h
    · obtain rfl : w = v := by simpa [quoteOf] using hq
      simp [acceptsQuote] at h
      exact h.2

theorem bin_source (env : FetchEnv) (k : String) (v : JVal)
    (h : _price_from_binance env k = .ok (some v)) :
    jget v "_source" = some (.str "Binance") := by
  unfold _price_from_binance at h
  repeat' split at h
  all_goals first
    | exact Except.noConfusion h
    | exact Option.noConfusion (Except.ok.inj h)
    | (obtain rfl := Option.some.inj (Except.ok.inj h); simp [jget, alookup])

theorem get_price_ok_some (env : FetchEnv) (s : String) (m : Dict)
    (h : get_price env s = .ok (some m)) :
    resolveAll env (parseIds s) = .ok m ∧ m ≠ [] := by
  unfold get_price at h
  rcases hres : resolveAll env (parseIds s) with e | d
  · rw [hres] at h
    exact Except.noConfusion h
  · rw [hres] at h
    simp only [Except.map] at h
    by_cases hd : d.isEmpty
    · rw [if_pos hd] at h
      exact Option.noConfusion (Except.ok.inj h)
    · rw [if_neg hd] at h
      obtain rfl := Option.some.inj (Except.ok.inj h)
      exact ⟨rfl, by simpa using hd⟩

theorem get_price_ok_none (env : FetchEnv) (s : String)
    (h : get_price env s = .ok none) :
    resolveAll env (parseIds s) = .ok [] := by
  unfold get_price at h
  rcases hres : resolveAll env (parseIds s) with e | d
  · rw [hres] at h
    exact Except.noConfusion h
  · rw [hres] at h
    simp only [Except.map] at h
    by_cases hd : d.isEmpty
    · obtain rfl : d = [] := by simpa using hd
      rfl
    · rw [if_neg hd] at h
      exact Option.noConfusion (Except.ok.inj h)

theorem resolveAll_isSome_iff (env : FetchEnv) (ids : List String) (d : Dict)
    (h : resolveAll env ids = .ok d) (k : String) :
    (alookup k d).isSome = true ↔ resolvedBy env ids k := by
  rw [resolveAll_lookup env ids d h k]
  unfold resolvedBy
  by_cases h1 : binResolves env k = true ∧ k ∈ ids
  · simp [h1, acceptsQuote_quoteOf_isSome _ h1.1]
  · by_cases h2 : okxResolves env k = true ∧ k ∈ needOkx env ids
    · simp [h1, h2, acceptsQuote_quoteOf_isSome _ h2.1]
    · by_cases h3 : cgResolves (cgData env ids) k = true ∧ k ∈ needCg env ids
      · simp [h1, h2, h3]
      · simp [h1, h2, h3]

theorem dict_eq_nil_iff (d : Dict) : (∀ k, alookup k d = none) ↔ d = [] := by
  constructor
  · intro h
    rcases d with _ | ⟨⟨k0, v0⟩, rest⟩
    · rfl
    · have := h k0
      simp [alookup] at this
  · intro h
    subst h
    intro k
    rfl

/-! ### Conversation history lemmas -/

theorem pyTrim_length (l : List ChatEntry) : (pyTrim l).length = min l.length 20 := by
  unfold pyTrim
  split
  next h => simp only [List.length_drop]; omega
  next h => omega

theorem pyTrim_concat_getLast (l : List ChatEntry) (x : ChatEntry) :
    (pyTrim (l ++ [x])).getLast? = some x := by
  unfold pyTrim
  split
  next h =>
    rw [List.drop_append_eq_append_drop, List.getLast?_append]
    have h0 : (l ++ [x]).length - 20 - l.length = 0 := by
      simp only [List.length_append, List.length_cons, List.length_nil]
      omega
    rw [h0]
    simp
  next h => exact List.getLast?_concat ..

theorem pyTrim_concat_sub (l : List ChatEntry) (x : ChatEntry) (e : ChatEntry)
    (h : e ∈ pyTrim (l ++ [x])) : e ∈ l ∨ e = x := by
  unfold pyTrim at h
  split at h
  · have := List.mem_of_mem_drop h
    simpa using this
  · simpa using h

theorem chatStream_length (u a : ℕ → String) (n : ℕ) : (chatStream u a n).length = 2 * n := by
  induction n with
  | zero => rfl
  | succ m ih =>
    simp only [chatStream, List.length_append, ih, List.length_cons, List.length_nil]
    omega

theorem successStep_eq (hist : List ChatEntry) (u a : String) :
    successStep hist u a = pyTrim (hist ++ [⟨"user", u⟩]) ++ [⟨"assistant", a⟩] := by
  simp [successStep, chat_with_deepseek, fullMessage]

theorem runExchanges_small (u a : ℕ → String) : ∀ n, n ≤ 10 → runExchanges u a n = chatStream u a n := by
  intro n
  induction n with
  | zero => intro _; rfl
  | succ m ih =>
    intro hm
    have hms : m ≤ 9 := by omega
    have hstep : runExchanges u a (m + 1) = successStep (runExchanges u a m) (u m) (a m) := rfl
    rw [hstep, ih (by omega), successStep_eq]
    have hlen : (chatStream u a m ++ [(⟨"user", u m⟩ : ChatEntry)]).length = 2 * m + 1 := by
      simp [chatStream_length]
    unfold pyTrim
    rw [if_neg (by omega)]
    simp [chatStream, List.append_assoc]

theorem runExchanges_large (u a : ℕ → String) : ∀ n, 11 ≤ n →
    runExchanges u a n = (chatStream u a n).drop (2 * n - 21) := by
  have hstep : ∀ m, runExchanges u a (m + 1) = successStep (runExchanges u a m) (u m) (a m) :=
    fun m => rfl
  intro n hn
  induction n, hn using Nat.le_induction with
  | base =>
    rw [show (11 : ℕ) = 10 + 1 from rfl, hstep, runExchanges_small u a 10 (by omega),
      successStep_eq]
    rw [show chatStream u a (10 + 1) =
      chatStream u a 10 ++ [⟨"user", u 10⟩, ⟨"assistant", a 10⟩] from rfl]
    have hlen : (chatStream u a 10 ++ [(⟨"user", u 10⟩ : ChatEntry)]).length = 21 := by
      simp [chatStream_length]
    unfold pyTrim
    rw [if_pos (by rw [hlen]; omega), hlen]
    rw [List.drop_append_eq_append_drop, List.drop_append_eq_append_drop]
    simp [chatStream_length, List.append_assoc]
  | succ m hm ih =>
    rw [hstep, ih, successStep_eq]
    rw [show chatStream u a (m + 1) =
      chatStream u a m ++ [⟨"user", u m⟩, ⟨"assistant", a m⟩] from rfl]
    have hxlen : ((chatStream u a m).drop (2 * m - 21)).length = 21 := by
      simp [chatStream_length]
      omega
    have hlen : ((chatStream u a m).drop (2 * m - 21) ++
        [(⟨"user", u m⟩ : ChatEntry)]).length = 22 := by
      simp [hxlen]
    unfold pyTrim
    rw [if_pos (by rw [hlen]; omega), hlen]
    rw [List.drop_append_eq_append_drop, List.drop_append_eq_append_drop, List.drop_drop]
    rw [hxlen]
    have h3 : 2 * m - 21 + (22 - 20) = 2 * (m + 1) - 21 := by omega
    have h4 : 2 * (m + 1) - 21 - (chatStream u a m).length = 0 := by
      simp [chatStream_length]
      omega
    rw [h3, h4]
    simp [List.append_assoc]

/-! ### Detection lemmas -/

theorem dedupFirstAux_nodup : ∀ (l seen : List String),
    (dedupFirstAux l seen).Nodup ∧ ∀ x ∈ dedupFirstAux l seen, x ∉ seen := by
  intro l
  induction l with
  | nil => intro seen; simp [dedupFirstAux]
  | cons x xs ih =>
    intro seen
    by_cases hx : x ∈ seen
    · simp only [dedupFirstAux, if_pos hx]
      exact ih seen
    · simp only [dedupFirstAux, if_neg hx]
      obtain ⟨hnd, hmem⟩ := ih (x :: seen)
      constructor
      · refine List.Nodup.cons ?_ hnd
        intro hxin
        exact (hmem x hxin) (by simp)
      · intro y hy
        rcases List.mem_cons.1 hy with rfl | hy2
        · exact hx
        · intro hseen
          exact (hmem y hy2) (by simp [hseen])

theorem dedupFirstAux_subset : ∀ (l seen : List String) (x : String),
    x ∈ dedupFirstAux l seen → x ∈ l := by
  intro l
  induction l with
  | nil => intro seen x h; simp [dedupFirstAux] at h
  | cons y ys ih =>
    intro seen x h
    by_cases hy : y ∈ seen
    · simp only [dedupFirstAux, if_pos hy] at h
      exact List.mem_cons_of_mem _ (ih seen x h)
    · simp only [dedupFirstAux, if_neg hy] at h
      rcases List.mem_cons.1 h with rfl | h2
      · simp
      · exact List.mem_cons_of_mem _ (ih _ x h2)

/-! ### Claim theorems -/

/-- Claim C5: for every behaviour of the HTTP layer — timeout, transport
exception, HTTP 429, any other non-200 status, or a 200 body that fails to
parse — `fetch_json` returns a value rather than raising: it yields the parsed
JSON exactly of a well-parsed 200 response and the explicit `None` signal in
every other case. -/
theorem c5_fetch_json_total (r : HttpResult) (j : JVal) :
    fetch_json r = some j ↔ r = HttpResult.response 200 (some j) := by
  constructor
  · intro h
    rcases r with _ | _ | ⟨st, body⟩
    · simp [fetch_json] at h
    · simp [fetch_json] at h
    · by_cases hst : st = 200
      · subst hst
        simp [fetch_json] at h
        rw [h]
      · simp [fetch_json, hst] at h
  · rintro rfl
    simp [fetch_json]

/-- Claim C8 counterexample: the cache-busting value is the whole-second
timestamp, so two calls at the distinct clock readings 1 and 1.5 send
identical query parameters — the request URL repeats, contradicting the claim
that any two calls at different moments carry different values. -/
theorem c8_counterexample :
    fetchParams [] 1 = fetchParams [] (3 / 2) ∧ (1 : ℚ) ≠ 3 / 2 := by
  refine ⟨?_, by norm_num⟩
  have h1 : pyInt 1 = 1 := by norm_num [pyInt]
  have h2 : pyInt (3 / 2) = 1 := by norm_num [pyInt]
  rw [show fetchParams [] 1 = dictInsert [] "_t" (JVal.num ((pyInt 1 : ℤ) : ℚ)) from rfl,
    show fetchParams [] (3 / 2) = dictInsert [] "_t" (JVal.num ((pyInt (3 / 2) : ℤ) : ℚ)) from rfl,
    h1, h2]

/-- Claim C8 (amended): every `fetch_json` call sets the query key `_t` to the
whole-second timestamp `int(time.time())` (overriding any caller value); this
value is non-decreasing in the clock, and two calls whose readings fall in
different whole seconds carry different parameters — but two calls within the
same second repeat the same URL. -/
theorem c8_amended (params : Dict) (t1 t2 : ℚ) :
    alookup "_t" (fetchParams params t1) = some (.num ((pyInt t1 : ℤ) : ℚ)) ∧
    (t1 ≤ t2 → pyInt t1 ≤ pyInt t2) ∧
    (pyInt t1 ≠ pyInt t2 → fetchParams params t1 ≠ fetchParams params t2) := by
  refine ⟨alookup_dictInsert_self _ _ _, ?_, ?_⟩
  · intro hle
    unfold pyInt
    by_cases h1 : (0 : ℚ) ≤ t1
    · rw [if_pos h1, if_pos (le_trans h1 hle)]
      exact Int.floor_le_floor hle
    · by_cases h2 : (0 : ℚ) ≤ t2
      · rw [if_neg h1, if_pos h2]
        have hc : ⌈t1⌉ ≤ 0 := Int.ceil_le.mpr (by push_cast; linarith [lt_of_not_ge h1])
        have hf : (0 : ℤ) ≤ ⌊t2⌋ := Int.floor_nonneg.mpr h2
        omega
      · rw [if_neg h1, if_neg h2]
        exact Int.ceil_le_ceil hle
  · intro hne heq
    have hcong := congrArg (alookup "_t") heq
    rw [show fetchParams params t1 = dictInsert params "_t" (.num ((pyInt t1 : ℤ) : ℚ)) from rfl,
      show fetchParams params t2 = dictInsert params "_t" (.num ((pyInt t2 : ℤ) : ℚ)) from rfl,
      alookup_dictInsert_self, alookup_dictInsert_self] at hcong
    have h3 : ((pyInt t1 : ℤ) : ℚ) = ((pyInt t2 : ℤ) : ℚ) :=
      JVal.num.inj (Option.some.inj hcong)
    exact hne (by exact_mod_cast h3)

/-- Witness for the amended C8 at the concrete readings 1 and 2. -/
theorem c8_witness :
    alookup "_t" (fetchParams [] 1) = some (.num ((pyInt 1 : ℤ) : ℚ)) ∧
    pyInt 1 ≤ pyInt 2 ∧ fetchParams [] 1 ≠ fetchParams [] 2 := by
  obtain ⟨h1, h2, h3⟩ := c8_amended [] 1 2
  exact ⟨h1, h2 (by norm_num), h3 (by norm_num [pyInt])⟩

/-- Claim C9: `detect_coins` returns at most 4 pairwise-distinct canonical ids,
every returned id comes from an alias key occurring as a substring of the
lowered text (so matching is case-insensitive: it depends only on the lowered
text), keeping the first match per canonical asset. -/
theorem c9_detect_coins (text : String) :
    (detect_coins text).length ≤ 4 ∧
    (detect_coins text).Nodup ∧
    (∀ v ∈ detect_coins text, ∃ k, (k, v) ∈ COIN_ALIAS ∧ strContains (pyLower text) k = true) ∧
    (∀ t2 : String, pyLower text = pyLower t2 → detect_coins text = detect_coins t2) ∧
    detect_coins text =
      (dedupFirst ((COIN_ALIAS.filter (fun kv => strContains (pyLower text) kv.1)).map
        (fun kv => kv.2))).take 4 := by
  refine ⟨List.length_take_le .., ?_, ?_, ?_, rfl⟩
  · exact ((dedupFirstAux_nodup _ []).1).sublist (List.take_sublist ..)
  · intro v hv
    have hv2 := List.mem_of_mem_take hv
    have hv3 := dedupFirstAux_subset _ [] v hv2
    obtain ⟨kv, hmem, hkv⟩ := List.mem_map.1 hv3
    obtain ⟨hmem2, hpred⟩ := List.mem_filter.1 hmem
    exact ⟨kv.1, by rw [← hkv]; simpa using hmem2, hpred⟩
  · intro t2 ht
    unfold detect_coins
    rw [ht]

set_option maxRecDepth 4000 in
/-- Claim C4 counterexample: after 25 sequential successful exchanges from an
empty history the stored history holds 21 entries, not at most 20 — the trim
to 20 happens at user-append time and the assistant entry is appended after
it. -/
theorem c4_counterexample :
    (runExchanges (fun _ => "hi") (fun _ => "ok") 25).length = 21 ∧
    ¬ (runExchanges (fun _ => "hi") (fun _ => "ok") 25).length ≤ 20 := by
  refine ⟨by decide, by decide⟩

/-- Claim C4 (amended): after each completed exchange the stored history holds
at most 21 entries (the 20-entry cap is enforced when the user entry is
appended, before the assistant entry is added), and after 25 sequential
successful exchanges the retained history is exactly the 21 most recent
entries of the exchange stream — the oldest entries evicted first. -/
theorem c4_amended (hist : List ChatEntry) (um cd now : String) (out : LLMOutcome)
    (u a : ℕ → String) :
    ((chat_with_deepseek hist um cd now out).1).length ≤ 21 ∧
    runExchanges u a 25 = (chatStream u a 25).drop 29 ∧
    (runExchanges u a 25).length = 21 := by
  refine ⟨?_, ?_, ?_⟩
  · unfold chat_with_deepseek
    rcases out with msg | code | _ | _ <;>
      simp [pyTrim_length]
  · have h := runExchanges_large u a 25 (by omega)
    simpa using h
  · rw [runExchanges_large u a 25 (by omega)]
    simp [chatStream_length]

/-- Claim C10: when the model call fails in any way, the (possibly
context-augmented) user message stays appended to the stored history, no
assistant entry is appended, and the placeholder error reply is returned but
never stored — the history ends with a user entry with no matching assistant
entry. -/
theorem c10_failed_exchange (hist : List ChatEntry) (um cd now : String) (out : LLMOutcome)
    (h : ∀ msg, out ≠ .ok msg) :
    (chat_with_deepseek hist um cd now out).1 =
      pyTrim (hist ++ [⟨"user", fullMessage cd now um⟩]) ∧
    ((chat_with_deepseek hist um cd now out).1).getLast? =
      some ⟨"user", fullMessage cd now um⟩ ∧
    (chat_with_deepseek hist um cd now out).2 = placeholderOf out ∧
    (∀ e ∈ (chat_with_deepseek hist um cd now out).1,
      e ∈ hist ∨ e = ⟨"user", fullMessage cd now um⟩) := by
  rcases out with msg | code | _ | _
  · exact absurd rfl (h msg)
  · exact ⟨rfl, pyTrim_concat_getLast _ _, rfl, fun e he => pyTrim_concat_sub _ _ _ he⟩
  · exact ⟨rfl, pyTrim_concat_getLast _ _, rfl, fun e he => pyTrim_concat_sub _ _ _ he⟩
  · exact ⟨rfl, pyTrim_concat_getLast _ _, rfl, fun e he => pyTrim_concat_sub _ _ _ he⟩

/-- Witness for C10 at a concrete failed exchange (a timeout). -/
theorem c10_witness :
    (chat_with_deepseek [] "hello" "" "" LLMOutcome.timeout).1 =
      pyTrim ([] ++ [⟨"user", fullMessage "" "" "hello"⟩]) ∧
    ((chat_with_deepseek [] "hello" "" "" LLMOutcome.timeout).1).getLast? =
      some ⟨"user", fullMessage "" "" "hello"⟩ ∧
    (chat_with_deepseek [] "hello" "" "" LLMOutcome.timeout).2 =
      placeholderOf LLMOutcome.timeout ∧
    (∀ e ∈ (chat_with_deepseek [] "hello" "" "" LLMOutcome.timeout).1,
      e ∈ ([] : List ChatEntry) ∨ e = ⟨"user", fullMessage "" "" "hello"⟩) :=
  c10_failed_exchange [] "hello" "" "" .timeout (fun msg => by simp)

/-- Claim C1: in every normally-returning `get_price` invocation, an asset the
Binance adapter resolves with a positive usd price is returned with that very
Binance quote (Primary provenance); the result keys are pairwise distinct, and
the OKX and CoinGecko tiers are consulted exactly on the identifiers every
earlier tier failed to resolve. -/
theorem c1_tier_precedence (env : FetchEnv) (s : String) (m : Dict)
    (h : get_price env s = .ok (some m)) :
    (∀ k, k ∈ parseIds s → ∀ v p, _price_from_binance env k = .ok (some v) →
      jget v "usd" = some (.num p) → 0 < p →
      alookup k m = some v ∧ jget v "_source" = some (.str "Binance")) ∧
    (dictKeys m).Nodup ∧
    needOkx env (parseIds s) = (parseIds s).filter (fun k => !binResolves env k) ∧
    needCg env (parseIds s) = (needOkx env (parseIds s)).filter (fun k => !okxResolves env k) := by
  obtain ⟨hres, hne⟩ := get_price_ok_some env s m h
  refine ⟨?_, resolveAll_nodup env _ m hres, needOkx_eq env _, needCg_eq env _⟩
  intro k hk v p hadapt husd hp
  have hobj : v.isObj = true := by
    cases v
    case obj kvs => rfl
    all_goals simp [jget] at husd
  have hacc : binResolves env k = true := by
    show acceptsQuote (_price_from_binance env k) = true
    rw [hadapt]
    show (v.isObj && truthy (jgetD v "usd" JVal.null)) = true
    unfold jgetD
    rw [hobj, husd]
    simp [truthy]
    exact ne_of_gt hp
  have hlook := resolveAll_lookup env (parseIds s) m hres k
  rw [if_pos ⟨hacc, hk⟩] at hlook
  have hq : quoteOf (_price_from_binance env k) = some v := by
    rw [hadapt]
    rfl
  exact ⟨by rw [hlook, hq], bin_source env k v hadapt⟩

/-- Witness for C1 at the concrete request `"bitcoin"` in `envW`. -/
theorem c1_witness :
    alookup "bitcoin" [("bitcoin", quoteW)] = some quoteW ∧
    jget quoteW "_source" = some (.str "Binance") :=
  (c1_tier_precedence envW "bitcoin" [("bitcoin", quoteW)] (by rfl)).1
    "bitcoin" (by rw [show parseIds "bitcoin" = ["bitcoin"] from rfl]; simp)
    quoteW 5 (by rfl) (by rfl) (by norm_num)

/-- Claim C2: a normally-returning `get_price` yields the absent signal `None`
exactly when no requested identifier was resolved by any of the three tiers;
otherwise the returned mapping is nonempty and holds a quote exactly for the
identifiers some tier resolved. -/
theorem c2_total_failure (env : FetchEnv) (s : String) (r : Option Dict)
    (h : get_price env s = .ok r) :
    (r = none ↔ ∀ k, ¬ resolvedBy env (parseIds s) k) ∧
    (∀ m, r = some m → m ≠ [] ∧
      ∀ k, ((alookup k m).isSome = true ↔ resolvedBy env (parseIds s) k)) := by
  constructor
  · constructor
    · rintro rfl
      have hres := get_price_ok_none env s h
      intro k hk
      have hsome := (resolveAll_isSome_iff env _ [] hres k).2 hk
      simp [alookup] at hsome
    · intro hall
      rcases r with _ | m
      · rfl
      · exfalso
        obtain ⟨hres, hne⟩ := get_price_ok_some env s m h
        obtain ⟨k, v, hkv⟩ := exists_alookup_of_ne_nil m hne
        exact hall k ((resolveAll_isSome_iff env _ m hres k).1 (by simp [hkv]))
  · rintro m rfl
    obtain ⟨hres, hne⟩ := get_price_ok_some env s m h
    exact ⟨hne, fun k => resolveAll_isSome_iff env _ m hres k⟩

/-- Witness for C2 at the concrete request `"bitcoin"` in `envW`. -/
theorem c2_witness :
    ([("bitcoin", quoteW)] : Dict) ≠ [] ∧
    ((alookup "bitcoin" [("bitcoin", quoteW)]).isSome = true ↔
      resolvedBy envW (parseIds "bitcoin") "bitcoin") := by
  have h := (c2_total_failure envW "bitcoin" (some [("bitcoin", quoteW)]) (by rfl)).2
    [("bitcoin", quoteW)] rfl
  exact ⟨h.1, h.2 "bitcoin"⟩

/-- Claim C6: within one Binance fan-out, an identifier whose adapter task
raises is downgraded to no quote and handed to the next tier, while any other
identifier the adapter resolves still has its quote stored by the same
tier-1 collection loop. -/
theorem c6_failure_isolation (env : FetchEnv) (ids : List String) (a b : String)
    (ha : a ∈ ids) (hb : b ∈ ids)
    (hfail : _price_from_binance env a = .error ())
    (hok : binResolves env b = true) :
    alookup b (tierFold (_price_from_binance env) [] ids).1 =
      quoteOf (_price_from_binance env b) ∧
    (quoteOf (_price_from_binance env b)).isSome = true ∧
    a ∈ (tierFold (_price_from_binance env) [] ids).2 := by
  have hok' : acceptsQuote (_price_from_binance env b) = true := hok
  refine ⟨?_, acceptsQuote_quoteOf_isSome _ hok', ?_⟩
  · rw [tierFold_lookup]
    simp [hok', hb]
  · rw [tierFold_snd]
    have hfa : acceptsQuote (_price_from_binance env a) = false := by
      rw [hfail]
      rfl
    simp [List.mem_filter, ha, hfa]

/-- Witness for C6: ethereum raises, bitcoin still resolves via Binance. -/
theorem c6_witness :
    alookup "bitcoin" (tierFold (_price_from_binance envSplit) [] ["ethereum", "bitcoin"]).1 =
      quoteOf (_price_from_binance envSplit "bitcoin") ∧
    (quoteOf (_price_from_binance envSplit "bitcoin")).isSome = true ∧
    "ethereum" ∈ (tierFold (_price_from_binance envSplit) [] ["ethereum", "bitcoin"]).2 :=
  c6_failure_isolation envSplit ["ethereum", "bitcoin"] "ethereum" "bitcoin"
    (by simp) (by simp) (by rfl) (by rfl)

/-- Claim C3 counterexample: with Binance and OKX failing and CoinGecko
returning a zero usd price for bitcoin, `get_price` stores the CoinGecko
entry without any usd check — the returned quote carries usd 0, which is not
a positive number, so a zero-price asset is not treated as a lookup failure
on the fallback tier. -/
theorem c3_counterexample :
    get_price envCg "bitcoin" =
      .ok (some [("bitcoin", JVal.obj [("usd", JVal.num 0), ("_source", JVal.str "CoinGecko")])]) ∧
    jget (JVal.obj [("usd", JVal.num 0), ("_source", JVal.str "CoinGecko")]) "usd" =
      some (JVal.num 0) ∧
    ¬ (0 : ℚ) > 0 :=
  ⟨by rfl, by rfl, by norm_num⟩

/-- Claim C3 (amended): every quote stored from the Binance or OKX tier has a
truthy — nonzero, though not necessarily positive — usd field, zero or missing
usd being treated as failure on those tiers; but an entry merged from the
CoinGecko fallback is stored whenever the identifier maps to a dict in the
payload, with no usd validation at all. -/
theorem c3_amended (env : FetchEnv) (s : String) (m : Dict) (k : String) (v : JVal)
    (h : get_price env s = .ok (some m)) (hkv : alookup k m = some v) :
    (binResolves env k = true ∧ quoteOf (_price_from_binance env k) = some v ∧
      truthy (jgetD v "usd" JVal.null) = true) ∨
    (okxResolves env k = true ∧ quoteOf (_price_from_okx env k) = some v ∧
      truthy (jgetD v "usd" JVal.null) = true) ∨
    (cgResolves (cgData env (parseIds s)) k = true ∧ k ∈ needCg env (parseIds s) ∧
      v = cgQuote (cgData env (parseIds s)) k) := by
  obtain ⟨hres, hne⟩ := get_price_ok_some env s m h
  have hlook := resolveAll_lookup env (parseIds s) m hres k
  rw [hkv] at hlook
  by_cases h1 : binResolves env k = true ∧ k ∈ parseIds s
  · rw [if_pos h1] at hlook
    exact Or.inl ⟨h1.1, hlook.symm, acceptsQuote_usd _ v h1.1 hlook.symm⟩
  · rw [if_neg h1] at hlook
    by_cases h2 : okxResolves env k = true ∧ k ∈ needOkx env (parseIds s)
    · rw [if_pos h2] at hlook
      exact Or.inr (Or.inl ⟨h2.1, hlook.symm, acceptsQuote_usd _ v h2.1 hlook.symm⟩)
    · rw [if_neg h2] at hlook
      by_cases h3 : cgResolves (cgData env (parseIds s)) k = true ∧ k ∈ needCg env (parseIds s)
      · rw [if_pos h3] at hlook
        exact Or.inr (Or.inr ⟨h3.1, h3.2, Option.some.inj hlook⟩)
      · rw [if_neg h3] at hlook
        exact absurd hlook (by simp)

/-- Witness for the amended C3: in `envCg` the bitcoin quote comes from the
CoinGecko branch of the disjunction. -/
theorem c3_witness :
    (binResolves envCg "bitcoin" = true ∧
      quoteOf (_price_from_binance envCg "bitcoin") =
        some (JVal.obj [("usd", JVal.num 0), ("_source", JVal.str "CoinGecko")]) ∧
      truthy (jgetD (JVal.obj [("usd", JVal.num 0), ("_source", JVal.str "CoinGecko")])
        "usd" JVal.null) = true) ∨
    (okxResolves envCg "bitcoin" = true ∧
      quoteOf (_price_from_okx envCg "bitcoin") =
        some (JVal.obj [("usd", JVal.num 0), ("_source", JVal.str "CoinGecko")]) ∧
      truthy (jgetD (JVal.obj [("usd", JVal.num 0), ("_source", JVal.str "CoinGecko")])
        "usd" JVal.null) = true) ∨
    (cgResolves (cgData envCg (parseIds "bitcoin")) "bitcoin" = true ∧
      "bitcoin" ∈ needCg envCg (parseIds "bitcoin") ∧
      (JVal.obj [("usd", JVal.num 0), ("_source", JVal.str "CoinGecko")]) =
        cgQuote (cgData envCg (parseIds "bitcoin")) "bitcoin") :=
  c3_amended envCg "bitcoin"
    [("bitcoin", JVal.obj [("usd", JVal.num 0), ("_source", JVal.str "CoinGecko")])]
    "bitcoin" (JVal.obj [("usd", JVal.num 0), ("_source", JVal.str "CoinGecko")])
    (by rfl) (by rfl)

/-- Claim C7: when the OKX adapter returns a quote `v` and the environment
delivered the ticker payload whose first `data` element is the dict `dkvs`,
with `price` the parsed `last` field and `open24` the fallback-resolved
`open24h` value, then the `usd_24h_change` field of `v` equals
(last − open24h)/open24h × 100 guarded by `open24h ≠ 0` (a zero `open24h`
yields change 0 rather than dividing); an absent `open24h` field resolves to
the last price, and whenever the resolved `open24h` is 0 or equals last the
stored change is 0. -/
theorem c7_okx_change (env : FetchEnv) (cid instId : String)
    (kvs dkvs : List (String × JVal)) (rest : List JVal) (v : JVal) (price open24 : ℚ)
    (htab : alookup cid COINGECKO_TO_OKX = some instId)
    (hfd : fetch_json (env.okx instId) = some (JVal.obj kvs))
    (hdata : alookup "data" kvs = some (JVal.arr (JVal.obj dkvs :: rest)))
    (hprice : pyFloat ((alookup "last" dkvs).getD (.num 0)) = .ok price)
    (hopen : pyFloat (if truthy ((alookup "open24h" dkvs).getD (.num price))
             then (alookup "open24h" dkvs).getD (.num price)
             else .num price) = .ok open24)
    (h : _price_from_okx env cid = .ok (some v)) :
    jget v "usd_24h_change" =
      some (.num (if open24 ≠ 0 then (price - open24) / open24 * 100 else 0)) ∧
    (alookup "open24h" dkvs = none → open24 = price) ∧
    (open24 = 0 ∨ open24 = price → jget v "usd_24h_change" = some (.num 0)) := by
  unfold _price_from_okx at h
  simp only [htab] at h
  simp only [hfd] at h
  by_cases htr : truthy (JVal.obj kvs) = true
  case neg =>
    rw [if_pos (by simp [htr])] at h
    exact Option.noConfusion (Except.ok.inj h)
  rw [if_neg (by simp [htr])] at h
  rcases hcode : alookup "code" kvs with _ | cv
  · simp only [hcode] at h
    exact Option.noConfusion (Except.ok.inj h)
  rcases cv with _ | b1 | q1 | c | xs1 | kvs1
  · simp only [hcode] at h
    exact Option.noConfusion (Except.ok.inj h)
  · simp only [hcode] at h
    exact Option.noConfusion (Except.ok.inj h)
  · simp only [hcode] at h
    exact Option.noConfusion (Except.ok.inj h)
  · simp only [hcode] at h
    by_cases hc : c = "0"
    case neg =>
      rw [if_pos (by simp [hc])] at h
      exact Option.noConfusion (Except.ok.inj h)
    rw [if_neg (by simp [hc])] at h
    simp only [hdata] at h
    simp only [hprice] at h
    simp only [hopen] at h
    rcases hvol : pyFloat ((alookup "volCcy24h" dkvs).getD (.num 0)) with e | vol
    · simp only [hvol] at h
      exact Except.noConfusion h
    simp only [hvol] at h
    obtain rfl := Option.some.inj (Except.ok.inj h)
    have hchange : jget (JVal.obj
        [("usd", JVal.num price), ("cny", JVal.num (price * CNY_RATE)),
         ("usd_24h_change",
          JVal.num (if open24 ≠ 0 then (price - open24) / open24 * 100 else 0)),
         ("usd_24h_vol", JVal.num vol),
         ("usd_market_cap", JVal.num 0), ("_source", JVal.str "OKX")])
        "usd_24h_change" =
        some (JVal.num (if open24 ≠ 0 then (price - open24) / open24 * 100 else 0)) := by
      simp [jget, alookup]
    refine ⟨hchange, ?_, ?_⟩
    · intro habs
      rw [habs] at hopen
      simp [pyFloat] at hopen
      exact hopen.symm
    · intro hd
      have hval : (if open24 ≠ 0 then (price - open24) / open24 * 100 else 0) = 0 := by
        rcases hd with h0 | hpq
        · simp [h0]
        · subst hpq
          by_cases hz : open24 = 0
          · simp [hz]
          · simp [sub_self]
      rw [hchange, hval]
  · simp only [hcode] at h
    exact Option.noConfusion (Except.ok.inj h)
  · simp only [hcode] at h
    exact Option.noConfusion (Except.ok.inj h)

/-- Witness for C7 at the concrete OKX response in `envOkx` (last 10,
open24h 8). -/
theorem c7_witness :
    jget vOkxW "usd_24h_change" =
      some (.num (if (8 : ℚ) ≠ 0 then ((10 : ℚ) - 8) / 8 * 100 else 0)) ∧
    (alookup "open24h" [("last", JVal.num 10), ("open24h", JVal.num 8)] = none →
      (8 : ℚ) = 10) ∧
    ((8 : ℚ) = 0 ∨ (8 : ℚ) = 10 → jget vOkxW "usd_24h_change" = some (.num 0)) :=
  c7_okx_change envOkx "bitcoin" "BTC-USDT"
    [("code", JVal.str "0"),
     ("data", JVal.arr [JVal.obj [("last", JVal.num 10), ("open24h", JVal.num 8)]])]
    [("last", JVal.num 10), ("open24h", JVal.num 8)] [] vOkxW 10 8
    (by rfl) (by rfl) (by rfl) (by rfl) (by rfl) (by rfl)

/-- Witness for the amended C4 at one concrete exchange and a concrete
25-exchange run. -/
theorem c4_witness :
    ((chat_with_deepseek [] "hi" "" "" (LLMOutcome.ok "ok")).1).length ≤ 21 ∧
    (runExchanges (fun _ => "u") (fun _ => "a") 25).length = 21 := by
  obtain ⟨h1, h2, h3⟩ :=
    c4_amended [] "hi" "" "" (LLMOutcome.ok "ok") (fun _ => "u") (fun _ => "a")
  exact ⟨h1, h3⟩

/-- Witness for C5 at a concrete well-parsed 200 response. -/
theorem c5_witness :
    fetch_json (HttpResult.response 200 (some (JVal.num 1))) = some (JVal.num 1) :=
  (c5_fetch_json_total (HttpResult.response 200 (some (JVal.num 1))) (JVal.num 1)).2 rfl

/-- Witness for C9 at a concrete mixed-case text. -/
theorem c9_witness :
    (detect_coins "BTC and eth PRICES").length ≤ 4 ∧
    (∃ k, (k, "bitcoin") ∈ COIN_ALIAS ∧ strContains (pyLower "BTC and eth PRICES") k = true) ∧
    detect_coins "BTC and eth PRICES" = detect_coins "btc and ETH prices" := by
  obtain ⟨h1, h2, h3, h4, h5⟩ := c9_detect_coins "BTC and eth PRICES"
  exact ⟨h1, h3 "bitcoin" (by decide), h4 "btc and ETH prices" (by decide)⟩
